import Mathlib

set_option maxHeartbeats 1000000
set_option linter.unnecessarySeqFocus false

/- Verification of the stm32 OV7670-camera / ST7735-display firmware.
   Shallow embedding of src/display.rs and src/camera.rs: every hardware
   access (SPI byte, GPIO line write, GPIO line poll, I2C status poll) is
   modelled as one event in a trace, or as consuming one sample of an
   input trace for polled lines. -/

/- Clock rate used for the busy-wait delays (crate::constants::CLK_HZ,
   value as in src/main.rs). -/
def CLK_HZ : Nat := 16000000

/- Truncating cast to u8 (the `as u8` casts in the source). -/
def u8 (n : Nat) : Nat := n % 256

/- Wrapping subtraction on u32 (`self.width - 1` on a u32 wraps at 2^32). -/
def wsub32 (a b : Nat) : Nat := (a + 4294967296 - b) % 4294967296

/- PinState from src/display.rs. -/
inductive PinState where
  | Enable : PinState
  | Disable : PinState
deriving DecidableEq

/- ControlMode from src/display.rs. -/
inductive ControlMode where
  | Data : ControlMode
  | Command : ControlMode
deriving DecidableEq

/- One observable action of the ST7735 driver: an SPI byte write, a
   chip-select change, a register-select change, a reset-line change or a
   busy delay. -/
inductive Ev where
  | spiW : Nat → Ev
  | cs : PinState → Ev
  | rs : ControlMode → Ev
  | rst : PinState → Ev
  | delay : Nat → Ev
deriving DecidableEq

/- The ST7735 driver state: declared width and height (u32 in source). -/
structure ST7735 where
  width : Nat
  height : Nat
deriving DecidableEq

def CASET : Nat := 0x2A
def RASET : Nat := 0x2B
def RAMWR : Nat := 0x2C
def NOP : Nat := 0x00
def SWRESET : Nat := 0x01
def SLPOUT : Nat := 0x11
def DISPON : Nat := 0x29
def WHITE : Nat := 0xFFFFFF

def delay120 : Ev := Ev.delay (CLK_HZ / 1000 * 120)

/- Column-range section of ST7735::fill (x0 = 0, x1 = width - 1). -/
def casetSeq (d : ST7735) : List Ev :=
  [Ev.rs ControlMode.Command, Ev.spiW CASET, Ev.rs ControlMode.Data,
   Ev.spiW 0x00, Ev.spiW 0x00, Ev.spiW 0x00, Ev.spiW (u8 (wsub32 d.width 1))]

/- Row-range section of ST7735::fill (y0 = 0, y1 = height - 1). -/
def rasetSeq (d : ST7735) : List Ev :=
  [Ev.rs ControlMode.Command, Ev.spiW RASET, Ev.rs ControlMode.Data,
   Ev.spiW 0x00, Ev.spiW 0x00, Ev.spiW 0x00, Ev.spiW (u8 (wsub32 d.height 1))]

/- The three pixel bytes streamed per pixel by ST7735::fill. -/
def fillPixelBytes (color : Nat) : List Ev :=
  [Ev.spiW (u8 ((color >>> 16) &&& 0xFF)),
   Ev.spiW (u8 ((color >>> 8) &&& 0xFF)),
   Ev.spiW (u8 (color &&& 0xFF))]

/- The height x width nested pixel loop of ST7735::fill. -/
def fillPixels (d : ST7735) (color : Nat) : List Ev :=
  (List.replicate d.height ((List.replicate d.width (fillPixelBytes color)).flatten)).flatten

/- ST7735::fill. -/
def fill (d : ST7735) (color? : Option Nat) : List Ev :=
  let color := color?.getD WHITE
  [Ev.cs PinState.Enable, Ev.rs ControlMode.Command, Ev.spiW NOP] ++
  casetSeq d ++ rasetSeq d ++
  [Ev.rs ControlMode.Command, Ev.spiW RAMWR, Ev.rs ControlMode.Data] ++
  fillPixels d color ++
  [Ev.rs ControlMode.Command, Ev.cs PinState.Disable]

/- Column-range section of ST7735::draw_row (x0 = x1 = row). -/
def rowCaset (row : Nat) : List Ev :=
  [Ev.rs ControlMode.Command, Ev.spiW CASET, Ev.rs ControlMode.Data,
   Ev.spiW 0x00, Ev.spiW (u8 row), Ev.spiW 0x00, Ev.spiW (u8 row)]

/- Row-range section of ST7735::draw_row (y0 = 0, y1 = length - 1). -/
def rowRaset (length : Nat) : List Ev :=
  [Ev.rs ControlMode.Command, Ev.spiW RASET, Ev.rs ControlMode.Data,
   Ev.spiW 0x00, Ev.spiW 0x00, Ev.spiW 0x00, Ev.spiW (u8 (wsub32 length 1))]

/- RGB565 to RGB888 conversion and the three SPI writes per pixel in
   ST7735::draw_row. -/
def px565 (color : Nat) : List Ev :=
  [Ev.spiW (u8 (((color >>> 11) &&& 0x1F) <<< 3)),
   Ev.spiW (u8 (((color >>> 5) &&& 0x3F) <<< 2)),
   Ev.spiW (u8 ((color &&& 0x1F) <<< 3))]

/- The pixel loop of ST7735::draw_row: `for i in 0..length` reading buf[i]. -/
def drawRowPixels (buf : List Nat) (length : Nat) : List Ev :=
  ((List.range length).map (fun i => px565 (buf.getD i 0))).flatten

/- ST7735::draw_row. -/
def draw_row (d : ST7735) (row : Nat) (buf : List Nat) : List Ev :=
  let length := min d.width buf.length
  if length = 0 then []
  else
    [Ev.cs PinState.Enable, Ev.rs ControlMode.Command, Ev.spiW NOP] ++
    rowCaset row ++ rowRaset length ++
    [Ev.rs ControlMode.Command, Ev.spiW RAMWR, Ev.rs ControlMode.Data] ++
    drawRowPixels buf length ++
    [Ev.rs ControlMode.Command, Ev.cs PinState.Disable]

/- Events of ST7735::calibrate before its final `self.fill(None)`. -/
def calPrelude : List Ev :=
  [Ev.cs PinState.Disable,
   Ev.rst PinState.Enable, delay120,
   Ev.rst PinState.Disable, delay120,
   Ev.cs PinState.Enable,
   Ev.rs ControlMode.Command, Ev.spiW SWRESET, delay120,
   Ev.spiW SLPOUT, delay120,
   Ev.rs ControlMode.Command, Ev.spiW DISPON, delay120]

/- ST7735::calibrate. -/
def calibrate (d : ST7735) : List Ev := calPrelude ++ fill d none

/- The SPI bytes written while the register-select line is in Data mode,
   starting from mode m (tracks every Ev.rs mode change). -/
def dataBytes : ControlMode → List Ev → List Nat
  | _, [] => []
  | _, Ev.rs m :: r => dataBytes m r
  | ControlMode.Data, Ev.spiW b :: r => b :: dataBytes ControlMode.Data r
  | ControlMode.Command, Ev.spiW _ :: r => dataBytes ControlMode.Command r
  | m, Ev.cs _ :: r => dataBytes m r
  | m, Ev.rst _ :: r => dataBytes m r
  | m, Ev.delay _ :: r => dataBytes m r

/- The SPI bytes written while the register-select line is in Command mode,
   starting from mode m. -/
def cmdBytes : ControlMode → List Ev → List Nat
  | _, [] => []
  | _, Ev.rs m :: r => cmdBytes m r
  | ControlMode.Command, Ev.spiW b :: r => b :: cmdBytes ControlMode.Command r
  | ControlMode.Data, Ev.spiW _ :: r => cmdBytes ControlMode.Data r
  | m, Ev.cs _ :: r => cmdBytes m r
  | m, Ev.rst _ :: r => cmdBytes m r
  | m, Ev.delay _ :: r => cmdBytes m r

/- Number of chip-select transitions to the given state in a trace. -/
def csCount (s : PinState) : List Ev → Nat
  | [] => 0
  | Ev.cs s2 :: r => (if s2 = s then 1 else 0) + csCount s r
  | Ev.spiW _ :: r => csCount s r
  | Ev.rs _ :: r => csCount s r
  | Ev.rst _ :: r => csCount s r
  | Ev.delay _ :: r => csCount s r

/- The 128x160 display of this project. -/
def st7735_128x160 : ST7735 := ⟨128, 160⟩

/- One sample of the camera parallel-interface lines, as observed by one
   GPIO read in src/camera.rs (vsync = PA6, hsync = PB3, pclk = PA9,
   data = GPIOC low byte). Each read_vsync/read_hsync/read_pclk/read_data
   call consumes one sample of the input trace. -/
structure Sig where
  vsync : Bool
  hsync : Bool
  pclk : Bool
  data : Nat
deriving DecidableEq

/- A busy-poll loop `while !f(line) {}`: consume samples until one
   satisfies f (inclusive). Returns the consumed samples and the rest;
   none when the trace is exhausted while still polling. -/
def pollUntil {α : Type} (f : α → Bool) : List α → Option (List α × List α)
  | [] => none
  | s :: rest =>
    if f s then some ([s], rest)
    else
      match pollUntil f rest with
      | none => none
      | some (p, r) => some (s :: p, r)

/- The per-pixel body of OV7670::draw_frame's inner loop: wait pclk rising
   edge, sample data bus (MSB), wait falling then rising edge, sample data
   bus (LSB), wait falling edge; combine big-endian. -/
def samplePixel (t : List Sig) : Option (Nat × List Sig) :=
  match pollUntil (fun s => s.pclk) t with
  | none => none
  | some (_, t1) =>
    match t1 with
    | [] => none
    | s1 :: t2 =>
      match pollUntil (fun s => !s.pclk) t2 with
      | none => none
      | some (_, t3) =>
        match pollUntil (fun s => s.pclk) t3 with
        | none => none
        | some (_, t4) =>
          match t4 with
          | [] => none
          | s2 :: t5 =>
            match pollUntil (fun s => !s.pclk) t5 with
            | none => none
            | some (_, t6) => some (((u8 s1.data) <<< 8) ||| (u8 s2.data), t6)

/- The `while hsync { ... }` loop of OV7670::draw_frame: while the polled
   hsync sample is high, sample one pixel and store it at index x when
   x < 160. Fuel bounds the iteration count; each iteration consumes at
   least one sample, so fuel = trace length + 1 is enough. -/
def captureRow : Nat → List Nat → Nat → List Sig → Option (List Nat × List Sig)
  | 0, _, _, _ => none
  | _ + 1, _, _, [] => none
  | fuel + 1, buf, x, s :: rest =>
    if s.hsync then
      match samplePixel rest with
      | none => none
      | some (d, rest2) =>
        captureRow fuel (if x < 160 then buf.set x d else buf) (x + 1) rest2
    else some (buf, rest)

/- The `for y in 0..80` loop of OV7670::draw_frame: per row, wait for an
   hsync rising edge, capture the row, hand the buffer to the display.
   Returns the list of buffers handed to ST7735::draw_row, in order. -/
def captureRows : Nat → List Nat → List Sig → Option (List (List Nat))
  | 0, _, _ => some []
  | n + 1, buf, t =>
    match pollUntil (fun s => s.hsync) t with
    | none => none
    | some (_, t1) =>
      match captureRow (t1.length + 1) buf 0 t1 with
      | none => none
      | some (buf2, t2) =>
        match captureRows n buf2 t2 with
        | none => none
        | some rows => some (buf2 :: rows)

/- The frame-wait phase of OV7670::draw_frame:
   `while !read_vsync {}` then `while read_vsync {}`.
   Also returns the consumed (polled) samples. -/
def waitFrameStart (t : List Sig) : Option (List Sig × List Sig) :=
  match pollUntil (fun s => s.vsync) t with
  | none => none
  | some (p1, t1) =>
    match pollUntil (fun s => !s.vsync) t1 with
    | none => none
    | some (p2, t2) => some (p1 ++ p2, t2)

/- OV7670::draw_frame: wait for the frame boundary, then capture 80 rows
   into the single 160-entry RGB565 buffer (initially zeroed). -/
def draw_frame (t : List Sig) : Option (List (List Nat)) :=
  match waitFrameStart t with
  | none => none
  | some (_, t2) => captureRows 80 (List.replicate 160 0) t2

/- Simulated source: the samples offered to the polls for one pixel
   carrying bytes m (high) then l (low): in-row hsync check, pclk rising
   edge, data sample m, pclk falling edge, pclk rising edge, data sample
   l, pclk falling edge. -/
def pixelBody (m l : Nat) : List Sig :=
  [⟨false, true, true, 0⟩, ⟨false, true, true, m⟩, ⟨false, true, false, 0⟩,
   ⟨false, true, true, 0⟩, ⟨false, true, true, l⟩, ⟨false, true, false, 0⟩]

def pixelChunk (m l : Nat) : List Sig :=
  ⟨false, true, false, 0⟩ :: pixelBody m l

/- Simulated source: one line-sync pulse carrying the given pixel byte
   pairs, ending with an hsync-low sample (end of row). -/
def rowTrace (pix : List (Nat × Nat)) : List Sig :=
  ⟨false, true, false, 0⟩ ::
  ((pix.map (fun p => pixelChunk p.1 p.2)).flatten ++ [⟨false, false, false, 0⟩])

/- Simulated source: one full low-high-low frame-sync pulse followed by
   the given rows. -/
def frameTrace (rows : List (List (Nat × Nat))) : List Sig :=
  ⟨false, false, false, 0⟩ :: ⟨true, false, false, 0⟩ :: ⟨false, false, false, 0⟩ ::
  (rows.map rowTrace).flatten

/- The 16-bit code draw_frame assembles from a high/low byte pair. -/
def pixelCode (p : Nat × Nat) : Nat := ((u8 p.1) <<< 8) ||| (u8 p.2)

/- An 80x160 grid of pixel byte pairs given by f. -/
def mkRows (f : Nat → Nat → Nat × Nat) : List (List (Nat × Nat)) :=
  (List.range 80).map (fun y => (List.range 160).map (fun x => f y x))

/- Sequential stores buf[x] := v0, buf[x+1] := v1, ... with the x < 160
   bound check of draw_frame. -/
def setRun : List Nat → Nat → List Nat → List Nat
  | buf, _, [] => buf
  | buf, x, v :: vs => setRun (if x < 160 then buf.set x v else buf) (x + 1) vs

/- One sample of the I2C1 SR1 status flags (and the DR data register)
   as seen by one poll in OV7670::sccb_write / sccb_read. -/
structure SR1 where
  sb : Bool
  addr : Bool
  btf : Bool
  rxne : Bool
  dr : Nat
deriving DecidableEq

/- Observable bus-control actions of the SCCB transactions. -/
inductive BusAct where
  | start : BusAct
  | stop : BusAct
  | sendDr : Nat → BusAct
  | clearAddrFlag : BusAct
  | nackAndStop : BusAct
  | readDrByte : BusAct
deriving DecidableEq

def I2C_ADDR : Nat := 0x21

/- OV7670::sccb_write: start, wait SB; send address byte, wait ADDR, clear
   flag; send register address, wait BTF; send data, wait BTF; stop.
   Every wait is an unbounded busy-poll: a trace that never raises the
   awaited flag is consumed entirely and the operation never completes
   (returns none); no timeout value exists. -/
def sccb_write (addr data : Nat) (t : List SR1) : Option (List BusAct × List SR1) :=
  match pollUntil (fun s => s.sb) t with
  | none => none
  | some (_, t1) =>
    match pollUntil (fun s => s.addr) t1 with
    | none => none
    | some (_, t2) =>
      match pollUntil (fun s => s.btf) t2 with
      | none => none
      | some (_, t3) =>
        match pollUntil (fun s => s.btf) t3 with
        | none => none
        | some (_, t4) =>
          some ([BusAct.start,
                 BusAct.sendDr ((I2C_ADDR <<< 1) ||| 0),
                 BusAct.clearAddrFlag,
                 BusAct.sendDr (u8 addr),
                 BusAct.sendDr (u8 data),
                 BusAct.stop], t4)

/- OV7670::sccb_read: write phase (start, SB; address, ADDR, clear;
   register address, BTF; stop), then restart (start, SB; read address,
   ADDR, clear; NACK+stop), wait RxNE, read DR. The DR read consumes one
   sample and returns its dr byte. Same unbounded busy-polls as
   sccb_write. -/
def sccb_read (addr : Nat) (t : List SR1) : Option (List BusAct × Nat × List SR1) :=
  match pollUntil (fun s => s.sb) t with
  | none => none
  | some (_, t1) =>
    match pollUntil (fun s => s.addr) t1 with
    | none => none
    | some (_, t2) =>
      match pollUntil (fun s => s.btf) t2 with
      | none => none
      | some (_, t3) =>
        match pollUntil (fun s => s.sb) t3 with
        | none => none
        | some (_, t4) =>
          match pollUntil (fun s => s.addr) t4 with
          | none => none
          | some (_, t5) =>
            match pollUntil (fun s => s.rxne) t5 with
            | none => none
            | some (_, t6) =>
              match t6 with
              | [] => none
              | s :: t7 =>
                some ([BusAct.start,
                       BusAct.sendDr ((I2C_ADDR <<< 1) ||| 0),
                       BusAct.clearAddrFlag,
                       BusAct.sendDr (u8 addr),
                       BusAct.stop,
                       BusAct.start,
                       BusAct.sendDr ((I2C_ADDR <<< 1) ||| 1),
                       BusAct.clearAddrFlag,
                       BusAct.nackAndStop,
                       BusAct.readDrByte], u8 s.dr, t7)

/- An SR1 sample with every status flag clear (an unresponsive bus). -/
def quietSR1 : SR1 := ⟨false, false, false, false, 0⟩

/- GPIO pin mode (MODER field) of the two I2C pins PB8 (SCL), PB9 (SDA). -/
inductive PinMode where
  | input : PinMode
  | output : PinMode
  | alternate : PinMode
deriving DecidableEq

/- Electrical configuration of the two bus pins: mode and alternate
   function number of PB8 and PB9. -/
structure GpioBCfg where
  moder8 : PinMode
  moder9 : PinMode
  afrh8 : Nat
  afrh9 : Nat
deriving DecidableEq

/- The bus-peripheral configuration both pins have while I2C1 owns them
   (alternate mode, AF4), as set up in OV7670::new. -/
def i2cPinCfg : GpioBCfg := ⟨PinMode.alternate, PinMode.alternate, 4, 4⟩

/- The 9-iteration pulse loop of OV7670::flush_i2c_bus: at iteration k it
   reads SDA (sample sda k); if high the loop breaks, otherwise it pulses
   SCL low then high. Returns the number of pulses performed. -/
def flushPulses (sda : Nat → Bool) : Nat → Nat → Nat
  | 0, _ => 0
  | n + 1, k => if sda k then 0 else flushPulses sda n (k + 1) + 1

/- OV7670::flush_i2c_bus: reconfigure both pins as outputs, drive the bus
   idle, pulse SCL up to 9 times while SDA reads low, emit a manual stop,
   then restore both pins to their I2C alternate-function roles.
   Returns the final pin configuration and the pulse count. -/
def flush_i2c_bus (sda : Nat → Bool) (cfg : GpioBCfg) : GpioBCfg × Nat :=
  let c1 : GpioBCfg := { cfg with moder8 := PinMode.output, moder9 := PinMode.output }
  let pulses := flushPulses sda 9 0
  let c2 : GpioBCfg := { c1 with moder8 := PinMode.alternate }
  let c3 : GpioBCfg := { c2 with afrh8 := 4 }
  let c4 : GpioBCfg := { c3 with moder9 := PinMode.alternate }
  let c5 : GpioBCfg := { c4 with afrh9 := 4 }
  (c5, pulses)

/- Decidable subsequence test: subseqB pat l is true when pat occurs in l
   as a (not necessarily contiguous) subsequence, in order. -/
def subseqB : List Bool → List Bool → Bool
  | [], _ => true
  | _ :: _, [] => false
  | p :: ps, b :: bs => if b = p then subseqB ps bs else subseqB (p :: ps) bs

/- A simulated SDA line that releases (reads high) from the fourth check
   onwards. -/
def sdaRel3 : Nat → Bool := fun k => decide (2 < k)

/- Now the verification lemmas and the claim theorems. -/

lemma pollUntil_some_last {α : Type} {f : α → Bool} {t p r : List α}
    (h : pollUntil f t = some (p, r)) :
    ∃ q a, p = q ++ [a] ∧ f a = true := by
  induction t generalizing p with
  | nil => simp [pollUntil] at h
  | cons s rest ih =>
    rw [pollUntil] at h
    by_cases hf : f s
    · simp [hf] at h
      exact ⟨[], s, by simp [h.1.symm], hf⟩
    · simp [hf] at h
      cases hrec : pollUntil f rest with
      | none => rw [hrec] at h; simp at h
      | some pr =>
        obtain ⟨p1, r1⟩ := pr
        rw [hrec] at h
        simp at h
        obtain ⟨hp, hr⟩ := h
        obtain ⟨q, a, hq, ha⟩ := ih (by rw [hrec, hr])
        exact ⟨s :: q, a, by simp [← hp, hq], ha⟩

lemma pollUntil_replicate_none {α : Type} (f : α → Bool) (x : α)
    (hx : f x = false) (n : Nat) :
    pollUntil f (List.replicate n x) = none := by
  induction n with
  | zero => rfl
  | succ k ih => rw [List.replicate_succ, pollUntil, ih]; simp [hx]

lemma subseqB_nil (l : List Bool) : subseqB [] l = true := by
  cases l <;> rfl

lemma subseqB_false_mid (xs ys : List Bool) :
    subseqB [false] (xs ++ false :: ys) = true := by
  induction xs with
  | nil => simp [subseqB, subseqB_nil]
  | cons b bs ih =>
    cases b <;> simp [subseqB, subseqB_nil, ih]

lemma subseqB_true_false (l1 l2 l3 : List Bool) :
    subseqB [true, false] (l1 ++ true :: l2 ++ false :: l3) = true := by
  induction l1 with
  | nil => simpa [subseqB] using subseqB_false_mid l2 l3
  | cons b bs ih =>
    cases b with
    | false => simpa [subseqB] using ih
    | true =>
      have h := subseqB_false_mid (bs ++ true :: l2) l3
      simp [subseqB] at h ⊢
      simpa [List.append_assoc] using h

/-- Claim C7 counterexample: the frame-wait phase of draw_frame completes on
the two-sample trace high, low, whose polled samples do not contain a low
sample followed by a high then a low: the code waits for a high level then
a low level, not a full low-to-high-to-low pulse. -/
theorem c7_counterexample :
    waitFrameStart [⟨true, false, false, 0⟩, ⟨false, false, false, 0⟩] =
      some ([⟨true, false, false, 0⟩, ⟨false, false, false, 0⟩], []) ∧
    subseqB [false, true, false]
      (([⟨true, false, false, 0⟩, ⟨false, false, false, 0⟩] : List Sig).map
        (fun s => s.vsync)) = false := by
  constructor
  · rfl
  · rfl

/-- Claim C7 (amended): whenever the frame-wait phase of draw_frame
completes, the polled frame-sync samples contain a high sample followed by
a low sample (a high level then a falling edge); a preceding low sample is
not required. -/
theorem c7_wait_frame_high_then_low (t p r : List Sig)
    (h : waitFrameStart t = some (p, r)) :
    subseqB [true, false] (p.map (fun s => s.vsync)) = true := by
  unfold waitFrameStart at h
  cases h1 : pollUntil (fun s => s.vsync) t with
  | none => rw [h1] at h; simp at h
  | some pr1 =>
    obtain ⟨p1, t1⟩ := pr1
    rw [h1] at h
    simp only at h
    cases h2 : pollUntil (fun s => !s.vsync) t1 with
    | none => rw [h2] at h; simp at h
    | some pr2 =>
      obtain ⟨p2, t2⟩ := pr2
      rw [h2] at h
      simp at h
      obtain ⟨hp, hr⟩ := h
      obtain ⟨q1, a1, hq1, hfa1⟩ := pollUntil_some_last h1
      obtain ⟨q2, a2, hq2, hfa2⟩ := pollUntil_some_last h2
      have ha2 : a2.vsync = false := by simpa using hfa2
      subst hp
      rw [hq1, hq2]
      simp [hfa1, ha2, List.append_assoc]
      simpa [List.append_assoc] using
        subseqB_true_false (q1.map (fun s => s.vsync)) (q2.map (fun s => s.vsync)) []

/-- Claim C7 witness: the amended theorem applied to the concrete trace
high, low. -/
theorem c7_witness :
    subseqB [true, false]
      (([⟨true, false, false, 0⟩, ⟨false, false, false, 0⟩] : List Sig).map
        (fun s => s.vsync)) = true :=
  c7_wait_frame_high_then_low
    [⟨true, false, false, 0⟩, ⟨false, false, false, 0⟩]
    [⟨true, false, false, 0⟩, ⟨false, false, false, 0⟩] [] (by rfl)

/-- Claim C2 counterexample: on a bus whose status flags never set, the
two-wire register write (and read) has consumed 500 polls and still not
completed, and no timeout error is surfaced: the waits are unbounded
busy-polls and no BusError type exists in the code. -/
theorem c2_counterexample :
    sccb_write 0x12 0x34 (List.replicate 500 quietSR1) = none ∧
    sccb_read 0x12 (List.replicate 500 quietSR1) = none := by
  have h := pollUntil_replicate_none (fun s : SR1 => s.sb) quietSR1 rfl 500
  constructor
  · unfold sccb_write; rw [h]
  · unfold sccb_read; rw [h]

/-- Claim C2 (amended): every status wait inside sccb_write and sccb_read
is an unbounded busy-poll: for every poll budget n, on a bus whose status
flags never set both operations consume all n samples without completing,
and no timeout error is ever returned (no BusError value exists). -/
theorem c2_waits_unbounded (n a d : Nat) :
    sccb_write a d (List.replicate n quietSR1) = none ∧
    sccb_read a (List.replicate n quietSR1) = none := by
  have h := pollUntil_replicate_none (fun s : SR1 => s.sb) quietSR1 rfl n
  constructor
  · unfold sccb_write; rw [h]
  · unfold sccb_read; rw [h]

lemma flushPulses_le (sda : Nat → Bool) (n k : Nat) : flushPulses sda n k ≤ n := by
  induction n generalizing k with
  | zero => simp [flushPulses]
  | succ m ih =>
    rw [flushPulses]
    cases hs : sda k with
    | true => simp
    | false =>
      simp only [Bool.false_eq_true, if_false]
      have := ih (k + 1)
      omega

lemma flushPulses_checks (sda : Nat → Bool) (n k : Nat) :
    ∀ i < flushPulses sda n k, sda (k + i) = false := by
  induction n generalizing k with
  | zero => simp [flushPulses]
  | succ m ih =>
    intro i hi
    rw [flushPulses] at hi
    cases hs : sda k with
    | true => rw [hs] at hi; simp at hi
    | false =>
      rw [hs] at hi
      simp at hi
      cases i with
      | zero => simpa using hs
      | succ j =>
        have hj : j < flushPulses sda m (k + 1) := by omega
        have hrec := ih (k + 1) j hj
        have he : k + (j + 1) = (k + 1) + j := by omega
        rw [he]
        exact hrec

lemma flushPulses_stop (sda : Nat → Bool) (n k : Nat)
    (h : flushPulses sda n k < n) : sda (k + flushPulses sda n k) = true := by
  induction n generalizing k with
  | zero => rw [flushPulses] at h; omega
  | succ m ih =>
    cases hs : sda k with
    | true => rw [flushPulses, hs]; simpa using hs
    | false =>
      rw [flushPulses, hs] at h ⊢
      simp at h ⊢
      have hlt : flushPulses sda m (k + 1) < m := by omega
      have hrec := ih (k + 1) hlt
      have he : k + (flushPulses sda m (k + 1) + 1) = (k + 1) + flushPulses sda m (k + 1) := by
        omega
      rw [he]
      exact hrec

/-- Claim C6: flush_i2c_bus always terminates, pulsing SCL at most 9 times
for every behaviour of the SDA line; every performed pulse was preceded by
a release check that read SDA low, and when it stops before the 9th pulse
the next check read SDA high (released); and when entered with both pins
in their I2C bus-peripheral configuration, the pin configuration on exit
is unchanged (both restored to alternate-function AF4). -/
theorem c6_flush_bounded_and_restores (sda : Nat → Bool) (cfg : GpioBCfg) :
    (flush_i2c_bus sda cfg).2 ≤ 9 ∧
    (∀ i < (flush_i2c_bus sda cfg).2, sda i = false) ∧
    ((flush_i2c_bus sda cfg).2 < 9 → sda ((flush_i2c_bus sda cfg).2) = true) ∧
    (cfg = i2cPinCfg → (flush_i2c_bus sda cfg).1 = cfg) := by
  have h2 : (flush_i2c_bus sda cfg).2 = flushPulses sda 9 0 := rfl
  have h1 : (flush_i2c_bus sda cfg).1 = i2cPinCfg := rfl
  refine ⟨?_, ?_, ?_, ?_⟩
  · rw [h2]; exact flushPulses_le sda 9 0
  · rw [h2]
    intro i hi
    have := flushPulses_checks sda 9 0 i hi
    simpa using this
  · rw [h2]
    intro hlt
    have := flushPulses_stop sda 9 0 hlt
    simpa using this
  · intro hcfg
    rw [h1, hcfg]

/-- Claim C6 witness: the theorem applied to an SDA line that releases at
the fourth check, started from the I2C pin configuration. -/
theorem c6_witness :
    (flush_i2c_bus sdaRel3 i2cPinCfg).2 ≤ 9 ∧
    sdaRel3 1 = false ∧
    sdaRel3 ((flush_i2c_bus sdaRel3 i2cPinCfg).2) = true ∧
    (flush_i2c_bus sdaRel3 i2cPinCfg).1 = i2cPinCfg :=
  ⟨(c6_flush_bounded_and_restores sdaRel3 i2cPinCfg).1,
   (c6_flush_bounded_and_restores sdaRel3 i2cPinCfg).2.1 1 (by decide),
   (c6_flush_bounded_and_restores sdaRel3 i2cPinCfg).2.2.1 (by decide),
   (c6_flush_bounded_and_restores sdaRel3 i2cPinCfg).2.2.2 rfl⟩

lemma csCount_append (s : PinState) (l1 l2 : List Ev) :
    csCount s (l1 ++ l2) = csCount s l1 + csCount s l2 := by
  induction l1 with
  | nil => simp [csCount]
  | cons e t ih => cases e <;> simp [csCount, ih] <;> omega

lemma csCount_spiW_all (s : PinState) (l : List Ev)
    (h : ∀ e ∈ l, ∃ b, e = Ev.spiW b) : csCount s l = 0 := by
  induction l with
  | nil => rfl
  | cons e t ih =>
    obtain ⟨b, rfl⟩ := h e (by simp)
    simpa [csCount] using ih (fun x hx => h x (by simp [hx]))

lemma fillPixels_spiW (d : ST7735) (c : Nat) :
    ∀ e ∈ fillPixels d c, ∃ b, e = Ev.spiW b := by
  intro e he
  rw [fillPixels, List.mem_flatten] at he
  obtain ⟨l, hl, hel⟩ := he
  have h1 := List.eq_of_mem_replicate hl
  subst h1
  rw [List.mem_flatten] at hel
  obtain ⟨l2, hl2, hel2⟩ := hel
  have h2 := List.eq_of_mem_replicate hl2
  subst h2
  rw [fillPixelBytes] at hel2
  simp at hel2
  rcases hel2 with rfl | rfl | rfl <;> exact ⟨_, rfl⟩

lemma drawRowPixels_spiW (buf : List Nat) (n : Nat) :
    ∀ e ∈ drawRowPixels buf n, ∃ b, e = Ev.spiW b := by
  intro e he
  simp [drawRowPixels, List.mem_flatten, List.mem_map, List.mem_range, px565] at he
  rcases he with ⟨i, -, rfl | rfl | rfl⟩ <;> exact ⟨_, rfl⟩

lemma csCount_fillPixels (s : PinState) (d : ST7735) (c : Nat) :
    csCount s (fillPixels d c) = 0 :=
  csCount_spiW_all s _ (fillPixels_spiW d c)

lemma csCount_drawRowPixels (s : PinState) (buf : List Nat) (n : Nat) :
    csCount s (drawRowPixels buf n) = 0 :=
  csCount_spiW_all s _ (drawRowPixels_spiW buf n)

lemma cmdBytes_data_spiW_append (l rest : List Ev)
    (h : ∀ e ∈ l, ∃ b, e = Ev.spiW b) :
    cmdBytes ControlMode.Data (l ++ rest) = cmdBytes ControlMode.Data rest := by
  induction l with
  | nil => rfl
  | cons e t ih =>
    obtain ⟨b, rfl⟩ := h e (by simp)
    simpa [cmdBytes] using ih (fun x hx => h x (by simp [hx]))

lemma cmdBytes_data_fillPixels (d : ST7735) (c : Nat) (rest : List Ev) :
    cmdBytes ControlMode.Data (fillPixels d c ++ rest) = cmdBytes ControlMode.Data rest :=
  cmdBytes_data_spiW_append _ _ (fillPixels_spiW d c)

lemma cmdBytes_calibrate (d : ST7735) :
    cmdBytes ControlMode.Command (calibrate d) =
      [SWRESET, SLPOUT, DISPON, NOP, CASET, RASET, RAMWR] := by
  simp [calibrate, calPrelude, fill, casetSeq, rasetSeq, cmdBytes,
    cmdBytes_data_fillPixels]

lemma csCount_fill_enable (d : ST7735) (c : Option Nat) :
    csCount PinState.Enable (fill d c) = 1 := by
  simp [fill, csCount_append, csCount, casetSeq, rasetSeq, csCount_fillPixels]

lemma csCount_fill_disable (d : ST7735) (c : Option Nat) :
    csCount PinState.Disable (fill d c) = 1 := by
  simp [fill, csCount_append, csCount, casetSeq, rasetSeq, csCount_fillPixels]

/-- Claim C8: ST7735::calibrate ends with exactly one fill and performs no
other fill (its command-mode byte stream contains exactly one memory-write
command, the one of the final fill trace it ends with), and for each
top-level display operation (calibrate, fill, draw_row) the number of
chip-select asserts equals the number of chip-select deasserts. -/
theorem c8_calibrate_one_fill_cs_balanced (d : ST7735) (c : Option Nat)
    (row : Nat) (buf : List Nat) :
    calibrate d = calPrelude ++ fill d none ∧
    cmdBytes ControlMode.Command (calibrate d) =
      [SWRESET, SLPOUT, DISPON, NOP, CASET, RASET, RAMWR] ∧
    (cmdBytes ControlMode.Command (calibrate d)).count RAMWR = 1 ∧
    csCount PinState.Enable (calibrate d) = csCount PinState.Disable (calibrate d) ∧
    csCount PinState.Enable (fill d c) = csCount PinState.Disable (fill d c) ∧
    csCount PinState.Enable (draw_row d row buf) =
      csCount PinState.Disable (draw_row d row buf) := by
  refine ⟨rfl, cmdBytes_calibrate d, ?_, ?_, ?_, ?_⟩
  · rw [cmdBytes_calibrate d]; decide
  · have hcal : calibrate d = calPrelude ++ fill d none := rfl
    rw [hcal, csCount_append, csCount_append, csCount_fill_enable,
      csCount_fill_disable]
    decide
  · rw [csCount_fill_enable, csCount_fill_disable]
  · by_cases h0 : min d.width buf.length = 0
    · simp [draw_row, h0, csCount]
    · simp [draw_row, h0, csCount_append, csCount, rowCaset, rowRaset,
        csCount_drawRowPixels]

/-- Claim C5: with the window set to the full screen of the 128x160
display, the column-address-set and row-address-set sections of fill emit
exactly 8 data-mode bytes, in order 00 00 00 7F 00 00 00 9F (each range
as two big-endian 16-bit values). -/
theorem c5_full_window_data_bytes (c : Option Nat) :
    fill st7735_128x160 c =
      [Ev.cs PinState.Enable, Ev.rs ControlMode.Command, Ev.spiW NOP] ++
      casetSeq st7735_128x160 ++ rasetSeq st7735_128x160 ++
      [Ev.rs ControlMode.Command, Ev.spiW RAMWR, Ev.rs ControlMode.Data] ++
      fillPixels st7735_128x160 (c.getD WHITE) ++
      [Ev.rs ControlMode.Command, Ev.cs PinState.Disable] ∧
    dataBytes ControlMode.Command (casetSeq st7735_128x160 ++ rasetSeq st7735_128x160) =
      [0x00, 0x00, 0x00, 0x7F, 0x00, 0x00, 0x00, 0x9F] ∧
    (dataBytes ControlMode.Command
      (casetSeq st7735_128x160 ++ rasetSeq st7735_128x160)).length = 8 :=
  ⟨rfl, by decide, by decide⟩

/-- Claim C9: fill with no colour argument streams the default colour
white 0xFFFFFF: its trace equals the trace of fill with colour 0xFFFFFF,
and every pixel of the width x height window receives the three bytes
FF FF FF. -/
theorem c9_fill_default_white (d : ST7735) :
    fill d none = fill d (some WHITE) ∧
    WHITE = 0xFFFFFF ∧
    fillPixels d ((none : Option Nat).getD WHITE) =
      (List.replicate d.height
        ((List.replicate d.width
          [Ev.spiW 0xFF, Ev.spiW 0xFF, Ev.spiW 0xFF]).flatten)).flatten := by
  refine ⟨rfl, rfl, ?_⟩
  have hb : fillPixelBytes WHITE = [Ev.spiW 0xFF, Ev.spiW 0xFF, Ev.spiW 0xFF] := by decide
  simp [fillPixels, hb]

/-- Claim C10: draw_row with an empty pixel buffer, or on a display of
width 0, returns immediately with an empty trace: no SPI byte, no
chip-select or register-select change, the whole drawing sequence
including the window-set commands is skipped. -/
theorem c10_draw_row_empty_skips (d : ST7735) (row hgt : Nat) (buf : List Nat) :
    draw_row d row [] = [] ∧ draw_row ⟨0, hgt⟩ row buf = [] := by
  constructor
  · simp [draw_row]
  · simp [draw_row]

lemma u8_shl_eq (x m s : Nat) (h : (m + 1) * 2 ^ s ≤ 256) :
    u8 ((x &&& m) <<< s) = (x &&& m) <<< s := by
  have h1 : x &&& m ≤ m := Nat.and_le_right
  have h2 : (x &&& m) * 2 ^ s ≤ m * 2 ^ s := Nat.mul_le_mul_right _ h1
  have h3 : m * 2 ^ s + 2 ^ s = (m + 1) * 2 ^ s := by ring
  have h4 : 0 < 2 ^ s := Nat.two_pow_pos s
  rw [u8, Nat.shiftLeft_eq]
  apply Nat.mod_eq_of_lt
  omega

/-- Claim C3: the RGB565 to RGB888 conversion of the pixel path yields
red = (p >>> 11 &&& 0x1F) <<< 3, green = (p >>> 5 &&& 0x3F) <<< 2,
blue = (p &&& 0x1F) <<< 3 for every pixel code p (the u8 casts are
lossless), as visible in the full draw_row trace of a one-pixel row; in
particular 0xF800 maps to (248,0,0), 0x07E0 to (0,252,0) and 0x001F to
(0,0,248). -/
theorem c3_rgb565_conversion (p : Nat) :
    draw_row st7735_128x160 0 [p] =
      [Ev.cs PinState.Enable, Ev.rs ControlMode.Command, Ev.spiW 0x00,
       Ev.rs ControlMode.Command, Ev.spiW 0x2A, Ev.rs ControlMode.Data,
       Ev.spiW 0x00, Ev.spiW 0x00, Ev.spiW 0x00, Ev.spiW 0x00,
       Ev.rs ControlMode.Command, Ev.spiW 0x2B, Ev.rs ControlMode.Data,
       Ev.spiW 0x00, Ev.spiW 0x00, Ev.spiW 0x00, Ev.spiW 0x00,
       Ev.rs ControlMode.Command, Ev.spiW 0x2C, Ev.rs ControlMode.Data,
       Ev.spiW (((p >>> 11) &&& 0x1F) <<< 3),
       Ev.spiW (((p >>> 5) &&& 0x3F) <<< 2),
       Ev.spiW ((p &&& 0x1F) <<< 3),
       Ev.rs ControlMode.Command, Ev.cs PinState.Disable] ∧
    drawRowPixels [0xF800] 1 = [Ev.spiW 248, Ev.spiW 0, Ev.spiW 0] ∧
    drawRowPixels [0x07E0] 1 = [Ev.spiW 0, Ev.spiW 252, Ev.spiW 0] ∧
    drawRowPixels [0x001F] 1 = [Ev.spiW 0, Ev.spiW 0, Ev.spiW 248] := by
  refine ⟨?_, by decide, by decide, by decide⟩
  have e1 := u8_shl_eq (p >>> 11) 0x1F 3 (by decide)
  have e2 := u8_shl_eq (p >>> 5) 0x3F 2 (by decide)
  have e3 := u8_shl_eq p 0x1F 3 (by decide)
  have hm : min (128 : Nat) 1 = 1 := by decide
  have z1 : u8 (wsub32 1 1) = 0 := by decide
  have z0 : u8 0 = 0 := rfl
  have hr : List.range 1 = [0] := rfl
  simp [draw_row, drawRowPixels, rowCaset, rowRaset, st7735_128x160, px565,
    NOP, CASET, RASET, RAMWR, e1, e2, e3, hm, z0, z1, hr]

lemma getD_take_eq (l : List Nat) (n i : Nat) (h : i < n) :
    (l.take n).getD i 0 = l.getD i 0 := by
  induction l generalizing n i with
  | nil => simp
  | cons a t ih =>
    cases n with
    | zero => omega
    | succ m =>
      cases i with
      | zero => simp
      | succ j => simpa using ih m j (by omega)

lemma drawRowPixels_length (buf : List Nat) (n : Nat) :
    (drawRowPixels buf n).length = 3 * n := by
  induction n with
  | zero => rfl
  | succ k ih =>
    rw [drawRowPixels, List.range_succ, List.map_append, List.flatten_append,
      List.length_append]
    rw [drawRowPixels] at ih
    rw [ih]
    simp [px565]
    omega

/-- Claim C4: draw_row with a pixel buffer longer than the display width
truncates to exactly width pixels: its trace equals the trace for the
buffer truncated to width, the streamed pixel section is exactly
3 x width bytes, and every index the pixel loop reads is strictly less
than the buffer length. -/
theorem c4_draw_row_truncates (d : ST7735) (row : Nat) (buf : List Nat)
    (h : d.width < buf.length) :
    draw_row d row buf = draw_row d row (buf.take d.width) ∧
    (drawRowPixels buf (min d.width buf.length)).length = 3 * d.width ∧
    ∀ i ∈ List.range (min d.width buf.length), i < buf.length := by
  have hmin : min d.width buf.length = d.width := Nat.min_eq_left (Nat.le_of_lt h)
  have htk : (buf.take d.width).length = d.width := by
    rw [List.length_take]; omega
  have hmin2 : min d.width (buf.take d.width).length = d.width := by
    rw [htk]; simp
  refine ⟨?_, ?_, ?_⟩
  · have hpx : drawRowPixels (buf.take d.width) d.width = drawRowPixels buf d.width := by
      rw [drawRowPixels, drawRowPixels]
      congr 1
      apply List.map_congr_left
      intro i hi
      rw [getD_take_eq buf d.width i (List.mem_range.mp hi)]
    simp only [draw_row, hmin, hmin2, hpx]
  · rw [hmin, drawRowPixels_length]
  · intro i hi
    rw [List.mem_range] at hi
    omega

/-- Claim C4 witness: the theorem applied to a width-2 display and a
three-pixel buffer. -/
theorem c4_witness :
    (2 : Nat) < 3 ∧
    draw_row ⟨2, 160⟩ 5 [10, 20, 30] = draw_row ⟨2, 160⟩ 5 ([10, 20, 30].take 2) :=
  ⟨by decide, (c4_draw_row_truncates ⟨2, 160⟩ 5 [10, 20, 30] (by decide)).1⟩

lemma samplePixel_body (m l : Nat) (rest : List Sig) :
    samplePixel (pixelBody m l ++ rest) = some (pixelCode (m, l), rest) := by
  simp [pixelBody, samplePixel, pollUntil, pixelCode]

lemma captureRow_run (pix : List (Nat × Nat)) :
    ∀ fuel buf x rest, pix.length < fuel →
      captureRow fuel buf x
        ((pix.map (fun q => pixelChunk q.1 q.2)).flatten ++
          ⟨false, false, false, 0⟩ :: rest) =
      some (setRun buf x (pix.map pixelCode), rest) := by
  induction pix with
  | nil =>
    intro fuel buf x rest hf
    cases fuel with
    | zero => omega
    | succ g => simp [captureRow, setRun]
  | cons q qs ih =>
    obtain ⟨m, l⟩ := q
    intro fuel buf x rest hf
    cases fuel with
    | zero => omega
    | succ g =>
      have hqs : qs.length < g := by
        simp at hf
        omega
      have hrec := ih g (if x < 160 then buf.set x (pixelCode (m, l)) else buf)
        (x + 1) rest hqs
      simp only [pixelChunk] at hrec
      simp only [List.map_cons, List.flatten_cons, pixelChunk, List.cons_append,
        List.append_assoc]
      simp [captureRow, samplePixel_body, setRun, hrec]

lemma take_succ_set (buf : List Nat) (x v : Nat) (h : x < buf.length) :
    (buf.set x v).take (x + 1) = buf.take x ++ [v] := by
  induction buf generalizing x with
  | nil => simp at h
  | cons a t ih =>
    cases x with
    | zero => simp
    | succ j => simp [ih j (by simpa using h)]

lemma setRun_full (vals : List Nat) :
    ∀ buf x, buf.length = 160 → x + vals.length = 160 →
      setRun buf x vals = buf.take x ++ vals := by
  induction vals with
  | nil =>
    intro buf x hb hx
    simp at hx
    rw [setRun, hx, ← hb, List.take_length, List.append_nil]
  | cons v vs ih =>
    intro buf x hb hx
    have hx160 : x < 160 := by simp at hx; omega
    rw [setRun, if_pos hx160]
    rw [ih (buf.set x v) (x + 1) (by simp [hb]) (by simp at hx ⊢; omega)]
    rw [take_succ_set buf x v (by omega)]
    simp

lemma flatten_chunks_length (pix : List (Nat × Nat)) :
    ((pix.map (fun q => pixelChunk q.1 q.2)).flatten).length = 7 * pix.length := by
  induction pix with
  | nil => rfl
  | cons q qs ih =>
    simp [pixelChunk, pixelBody] at ih ⊢
    omega

lemma captureRows_run (rows : List (List (Nat × Nat))) :
    ∀ buf, buf.length = 160 → (∀ r ∈ rows, r.length = 160) →
      captureRows rows.length buf ((rows.map rowTrace).flatten) =
        some (rows.map (fun r => r.map pixelCode)) := by
  induction rows with
  | nil => intro buf hb hr; rfl
  | cons r rs ih =>
    intro buf hb hr
    have hr160 : r.length = 160 := hr r (by simp)
    have hlen := flatten_chunks_length r
    rw [List.length_cons, List.map_cons, List.flatten_cons, rowTrace,
      List.cons_append, captureRows]
    simp only [List.append_assoc, List.singleton_append]
    have hpoll : pollUntil (fun s => s.hsync)
        ((⟨false, true, false, 0⟩ : Sig) ::
          ((r.map (fun q => pixelChunk q.1 q.2)).flatten ++
            ⟨false, false, false, 0⟩ :: (rs.map rowTrace).flatten)) =
        some ([⟨false, true, false, 0⟩],
          (r.map (fun q => pixelChunk q.1 q.2)).flatten ++
            ⟨false, false, false, 0⟩ :: (rs.map rowTrace).flatten) := by
      simp [pollUntil]
    have hbound : r.length <
        ((r.map (fun q => pixelChunk q.1 q.2)).flatten ++
          ⟨false, false, false, 0⟩ :: (rs.map rowTrace).flatten).length + 1 := by
      rw [List.length_append]
      omega
    have hrow := captureRow_run r
      (((r.map (fun q => pixelChunk q.1 q.2)).flatten ++
        ⟨false, false, false, 0⟩ :: (rs.map rowTrace).flatten).length + 1)
      buf 0 ((rs.map rowTrace).flatten) hbound
    have hset := setRun_full (r.map pixelCode) buf 0 hb (by simpa using hr160)
    have hih := ih (r.map pixelCode) (by simpa using hr160)
      (fun r2 hr2 => hr r2 (by simp [hr2]))
    rw [hpoll]
    simp only [hrow, hset, hih, List.take_zero, List.nil_append, List.map_cons]

/-- Claim C1: against a simulated source presenting one frame-sync pulse
followed by 80 line-sync pulses, each carrying 160 two-byte pixel samples
(MSB on the first pixel-clock rising edge, LSB on the next), draw_frame
hands the display exactly 80 rows of 160 pixel codes, each combined
big-endian as (high byte <<< 8) ||| low byte, with pixel order and row
order preserved; the pixel data is arbitrary (given by f). -/
theorem c1_capture_frame_80x160 (f : Nat → Nat → Nat × Nat) :
    draw_frame (frameTrace (mkRows f)) =
      some ((List.range 80).map
        (fun y => (List.range 160).map (fun x => pixelCode (f y x)))) := by
  have hwait : waitFrameStart (frameTrace (mkRows f)) =
      some ([⟨false, false, false, 0⟩, ⟨true, false, false, 0⟩,
             ⟨false, false, false, 0⟩],
        ((mkRows f).map rowTrace).flatten) := by
    simp [frameTrace, waitFrameStart, pollUntil]
  rw [draw_frame, hwait]
  show captureRows 80 (List.replicate 160 0) (((mkRows f).map rowTrace).flatten) =
    some ((List.range 80).map
      (fun y => (List.range 160).map (fun x => pixelCode (f y x))))
  have h80 : (mkRows f).length = 80 := by simp [mkRows]
  have hrun := captureRows_run (mkRows f) (List.replicate 160 0) (by simp)
    (by
      intro r hrm
      simp [mkRows] at hrm
      obtain ⟨y, -, rfl⟩ := hrm
      simp)
  rw [h80] at hrun
  rw [hrun]
  simp [mkRows, List.map_map, Function.comp]
